import Mathlib

/-!
Verification development for the obsidian-zotero-bridge repository.

Shallow embedding conventions:
* JavaScript strings are modelled as `List Char`.
* JavaScript numbers are modelled as `Int` (the code only manipulates
  integer-valued library/group ids and integer-like citekeys; non-integer
  floats, `NaN` and infinities never arise in the modelled claims).
* Fallible results (`string | null`) are modelled as `Option (List Char)`.
* Untyped JavaScript values (`unknown`) are modelled by the inductive
  `JSValue` below.
* The regular expressions of `zotero-utils.ts` are anchored (`^...$`) with
  unambiguous greedy/alternation structure, so each is translated as a
  deterministic first-match parser; JavaScript regex classes are modelled
  exactly (`\d` = ASCII digits, `[A-Za-z0-9]` = ASCII alphanumerics, `.`
  excludes line terminators, `/i` folds ASCII letter case).
-/

/-- The JavaScript `\s` / `String.prototype.trim` whitespace set
(WhiteSpace plus LineTerminator code points). -/
def isJsWs (c : Char) : Bool :=
  c.toNat = 0x20 || c.toNat = 0x9 || c.toNat = 0xA || c.toNat = 0xB ||
  c.toNat = 0xC || c.toNat = 0xD || c.toNat = 0xA0 || c.toNat = 0x1680 ||
  (0x2000 ≤ c.toNat && c.toNat ≤ 0x200A) ||
  c.toNat = 0x2028 || c.toNat = 0x2029 || c.toNat = 0x202F ||
  c.toNat = 0x205F || c.toNat = 0x3000 || c.toNat = 0xFEFF

/-- JavaScript line terminators (the characters `.` does not match). -/
def isLineTerm (c : Char) : Bool :=
  c.toNat = 0xA || c.toNat = 0xD || c.toNat = 0x2028 || c.toNat = 0x2029

/-- The regex class `\\d` = `[0-9]`. -/
def isDigitC (c : Char) : Bool := 48 ≤ c.toNat && c.toNat ≤ 57

/-- The regex class `[A-Za-z0-9]`. -/
def isAlnumC (c : Char) : Bool :=
  (48 ≤ c.toNat && c.toNat ≤ 57) || (65 ≤ c.toNat && c.toNat ≤ 90) ||
  (97 ≤ c.toNat && c.toNat ≤ 122)

/-- `String.prototype.trim`: drop leading and trailing whitespace. -/
def jsTrim (l : List Char) : List Char :=
  ((l.dropWhile isJsWs).reverse.dropWhile isJsWs).reverse

/-- `String.prototype.toLowerCase`, restricted to ASCII (all strings the
claims exercise are ASCII). -/
def toLowerList (l : List Char) : List Char :=
  l.map Char.toLower

/-- Case-insensitively consume a literal pattern (given in lower case) from
the front of a string, returning the remainder. Models matching a literal
fragment of a `/.../i` regex. -/
def ciDrop : List Char → List Char → Option (List Char)
  | [], s => some s
  | _ :: _, [] => none
  | p :: ps, c :: cs => if c.toLower = p then ciDrop ps cs else none

/-- Greedily consume `\d+` (one or more ASCII digits). -/
def takeDigits1 (s : List Char) : Option (List Char × List Char) :=
  let d := s.takeWhile isDigitC
  if d.isEmpty then none else some (d, s.dropWhile isDigitC)

/-- Match `[A-Za-z0-9]+$`: the whole remainder, nonempty, all alphanumeric. -/
def allAlnum1 (s : List Char) : Option (List Char) :=
  if s.isEmpty then none
  else if s.all isAlnumC then some s else none

/-- `/^zotero:\/\/select\/(.+)$/i` — returns the captured suffix. `(.+)`
requires a nonempty remainder free of line terminators. -/
def schemeMatch (s : List Char) : Option (List Char) :=
  match ciDrop "zotero://select/".data s with
  | none => none
  | some rest =>
    if rest.isEmpty then none
    else if rest.all (fun c => !isLineTerm c) then some rest else none

/-- Parse `(\d+)\/items\/([A-Za-z0-9]+)$` (the tail shared by the web-URL
shape), returning the numeric id and the item key. -/
def idItemsKey (s : List Char) : Option (List Char × List Char) :=
  match takeDigits1 s with
  | none => none
  | some (ds, rest) =>
    match ciDrop "/items/".data rest with
    | none => none
    | some rest2 =>
      match allAlnum1 rest2 with
      | none => none
      | some ks => some (ds, ks)

/-- `/^https?:\/\/zotero\.org\/(users|groups)\/(\d+)\/items\/([A-Za-z0-9]+)$/i`
— returns (scope-is-groups, numeric id, item key). -/
def urlMatch (s : List Char) : Option (Bool × List Char × List Char) :=
  match ciDrop "http".data s with
  | none => none
  | some s1 =>
    let s2 := match ciDrop "s".data s1 with
      | some t => t
      | none => s1
    match ciDrop "://zotero.org/".data s2 with
    | none => none
    | some s3 =>
      match ciDrop "users/".data s3 with
      | some s4 =>
        match idItemsKey s4 with
        | none => none
        | some (ds, ks) => some (false, ds, ks)
      | none =>
        match ciDrop "groups/".data s3 with
        | some s4 =>
          match idItemsKey s4 with
          | none => none
          | some (ds, ks) => some (true, ds, ks)
        | none => none

/-- `/^groups\/(\d+)\/items\/([A-Za-z0-9]+)$/i`. -/
def groupsMatch (s : List Char) : Option (List Char × List Char) :=
  match ciDrop "groups/".data s with
  | none => none
  | some s1 => idItemsKey s1

/-- `/^library\/items\/([A-Za-z0-9]+)$/i`. -/
def libraryMatch (s : List Char) : Option (List Char) :=
  match ciDrop "library/items/".data s with
  | none => none
  | some s1 => allAlnum1 s1

/-- Parse `(\d+)_([A-Za-z0-9]+)$`, the tail shared by the bare shapes. -/
def idUnderscoreKey (s : List Char) : Option (List Char × List Char) :=
  match takeDigits1 s with
  | none => none
  | some (ds, rest) =>
    match rest with
    | '_' :: rest2 =>
      match allAlnum1 rest2 with
      | none => none
      | some ks => some (ds, ks)
    | _ => none

/-- `/^items\/(\d+)_([A-Za-z0-9]+)$/i`. -/
def bareItemsMatch (s : List Char) : Option (List Char × List Char) :=
  match ciDrop "items/".data s with
  | none => none
  | some s1 => idUnderscoreKey s1

/-- `/^(\d+)_([A-Za-z0-9]+)$/i`. -/
def bareMatch (s : List Char) : Option (List Char × List Char) :=
  idUnderscoreKey s

/-- `/^([A-Za-z0-9]+)$/i`. -/
def simpleKeyMatch (s : List Char) : Option (List Char) :=
  allAlnum1 s

/-- The shape dispatch of `normalizeZoteroSelectPath` on the trimmed input:
try the six recognized shapes in order, first match wins. -/
def normalizeShapes (trimmed : List Char) : Option (List Char) :=
  match schemeMatch trimmed with
      | some rest => some rest
      | none =>
      match urlMatch trimmed with
      | some (isGroups, scopeId, key) =>
        if isGroups then
          some ("groups/".data ++ scopeId ++ "/items/".data ++ key)
        else
          some ("library/items/".data ++ key)
      | none =>
      match groupsMatch trimmed with
      | some (ds, ks) =>
        some ("groups/".data ++ ds ++ "/items/".data ++ ks)
      | none =>
      match libraryMatch trimmed with
      | some ks => some ("library/items/".data ++ ks)
      | none =>
      match bareItemsMatch trimmed with
      | some (libraryId, key) =>
        if libraryId = ['0'] then some ("library/items/".data ++ key)
        else some ("groups/".data ++ libraryId ++ "/items/".data ++ key)
      | none =>
      match bareMatch trimmed with
      | some (libraryId, key) =>
        if libraryId = ['0'] then some ("library/items/".data ++ key)
        else some ("groups/".data ++ libraryId ++ "/items/".data ++ key)
      | none =>
      match simpleKeyMatch trimmed with
      | some ks => some ("library/items/".data ++ ks)
      | none => none

/-- `normalizeZoteroSelectPath` from `zotero-utils.ts`: canonicalize a raw
identifier into a Zotero select path (absent for empty/whitespace input and
for anything matching none of the six shapes). -/
def normalizeZoteroSelectPath (rawId : List Char) : Option (List Char) :=
  if rawId.isEmpty then none
  else
    let trimmed := jsTrim rawId
    if trimmed.isEmpty then none
    else normalizeShapes trimmed

/-- Untyped JavaScript values (`unknown`), as far as this plugin inspects
them: strings, (integer) numbers, booleans, `null`, `undefValined`, arrays and
plain objects (a list of string-keyed fields in insertion order). -/
inductive JSValue where
  | str (s : List Char)
  | num (n : Int)
  | bool (b : Bool)
  | nullv
  | undefVal
  | arr (elems : List JSValue)
  | obj (fields : List (List Char × JSValue))

/-- JavaScript truthiness of a `JSValue` (`NaN`, absent from the `Int`
model, is the only falsy number besides `0`). -/
def jsTruthy : JSValue → Bool
  | .str s => !s.isEmpty
  | .num n => n ≠ 0
  | .bool b => b
  | .nullv => false
  | .undefVal => false
  | .arr _ => true
  | .obj _ => true

/-- Property access `record[k]` on an object's field list: the value of the
first matching key, `undefValined` when absent. -/
def getProp (fields : List (List Char × JSValue)) (k : List Char) : JSValue :=
  match fields.find? (fun kv => kv.1 = k) with
  | some kv => kv.2
  | none => .undefVal

/-- `String(n)` for an integer-valued JavaScript number. -/
def jsIntToString (n : Int) : List Char :=
  (toString n).data

/-- `Number(s)` for a string, restricted to the integer fragment the code
exercises: leading/trailing whitespace is ignored, the empty (or
whitespace-only) string converts to `0`, an optional sign followed by
decimal digits converts to the signed value, and anything else is `NaN`
(modelled as `none`; non-integer numeric literals are outside the model). -/
def jsStringToNumber (s : List Char) : Option Int :=
  match jsTrim s with
  | [] => some 0
  | '-' :: ds =>
    if ds ≠ [] ∧ ds.all isDigitC then
      some (-(ds.foldl (fun a c => a * 10 + (c.toNat - '0'.toNat)) 0 : Nat))
    else none
  | '+' :: ds =>
    if ds ≠ [] ∧ ds.all isDigitC then
      some ((ds.foldl (fun a c => a * 10 + (c.toNat - '0'.toNat)) 0 : Nat))
    else none
  | ds =>
    if ds.all isDigitC then
      some ((ds.foldl (fun a c => a * 10 + (c.toNat - '0'.toNat)) 0 : Nat))
    else none

/-- `extractNumericId` from `zotero-utils.ts`: a finite number passes
through; a string is converted via `Number(...)`; everything else (and
`NaN`) yields `undefValined`. -/
def extractNumericId : JSValue → Option Int
  | .num n => some n
  | .str s => jsStringToNumber s
  | _ => none

/-- The object branch of `extractZoteroSelectPath`: prefer a string `id`
field whose normalization is truthy; otherwise combine `key`/`itemKey` with
the `groupID ?? groupId` scope field. -/
def extractFromRecord (fields : List (List Char × JSValue)) : Option (List Char) :=
  let fromId : Option (List Char) :=
    match getProp fields "id".data with
    | .str s =>
      match normalizeZoteroSelectPath s with
      | some r => if r.isEmpty then none else some r
      | none => none
    | _ => none
  match fromId with
  | some r => some r
  | none =>
    let keyValue := if jsTruthy (getProp fields "key".data) then
        getProp fields "key".data
      else
        getProp fields "itemKey".data
    match keyValue with
    | .str k =>
      let gRaw := match getProp fields "groupID".data with
        | .undefVal => getProp fields "groupId".data
        | .nullv => getProp fields "groupId".data
        | v => v
      match extractNumericId gRaw with
      | some n => some ("groups/".data ++ jsIntToString n ++ "/items/".data ++ k)
      | none => some ("library/items/".data ++ k)
    | _ => none

/-- `extractZoteroSelectPath` from `zotero-utils.ts`: falsy entries yield
`none`; strings are normalized; objects (arrays included — their `id`,
`key`, `itemKey` properties are all `undefValined`) go through
`extractFromRecord`; other primitives yield `none`. -/
def extractZoteroSelectPath (entry : JSValue) : Option (List Char) :=
  if !jsTruthy entry then none
  else
    match entry with
    | .str s => normalizeZoteroSelectPath s
    | .obj fields => extractFromRecord fields
    | .arr _ => extractFromRecord []
    | _ => none

/-- `extractTitleFromEntry` from `zotero-utils.ts`: a non-null object with
a string `title` field yields its trimmed title when nonempty. -/
def extractTitleFromEntry : JSValue → Option (List Char)
  | .obj fields =>
    match getProp fields "title".data with
    | .str t =>
      let trimmed := jsTrim t
      if trimmed.isEmpty then none else some trimmed
    | _ => none
  | _ => none

/-- `String.prototype.includes`: `ndl` occurs contiguously in `hay`. -/
def hasSub : List Char → List Char → Bool
  | hay, ndl =>
    if ndl.isPrefixOf hay then true
    else
      match hay with
      | [] => false
      | _ :: t => hasSub t ndl

/-- The scan loop of `findTitleMatch` (`effTerms = none` models the
`effectiveTerms = null` case of an empty term list). -/
def findTitleLoop (effTerms : Option (List (List Char))) :
    List JSValue → Option JSValue
  | [] => none
  | e :: rest =>
    match extractTitleFromEntry e with
    | none => findTitleLoop effTerms rest
    | some title =>
      match effTerms with
      | none => some e
      | some ts =>
        let lowerTitle := toLowerList title
        if ts.all (fun term => hasSub lowerTitle term) then some e
        else findTitleLoop effTerms rest

/-- `findTitleMatch` from `zotero-utils.ts`. -/
def findTitleMatch (entries : List JSValue) (terms : List (List Char)) :
    Option JSValue :=
  if entries.isEmpty then none
  else
    let effectiveTerms := if terms.length > 0 then some terms else none
    findTitleLoop effectiveTerms entries

/-- The nine recognized citekey field aliases (`citekeyFields` in
`zotero-utils.ts`, a `Set` of literal strings). -/
def citekeyFieldNames : List (List Char) :=
  ["citekey".data, "cite-key".data, "zotero-key".data, "zotero_key".data,
   "zoterokey".data, "bbt-citekey".data, "bbt_citekey".data,
   "better-bibtex-citekey".data, "betterbibtexcitekey".data]

/-- `isCitekeyField`: membership in the alias set. -/
def isCitekeyField (key : List Char) : Bool :=
  citekeyFieldNames.contains key

/-- `trimmed.startsWith('@') ? trimmed.slice(1) : trimmed`: strip a single
leading `@`. -/
def stripLeadAt (t : List Char) : List Char :=
  if t.head? = some '@' then t.tail else t

/-- `normalizeCitekey` from `zotero-utils.ts`: numbers are stringified;
non-strings yield `none`; strings are trimmed, lose a single leading `@`,
and are lower-cased, with emptiness at either stage yielding `none`. -/
def normalizeCitekey (raw : JSValue) : Option (List Char) :=
  let raw' : JSValue := match raw with
    | .num n => .str (jsIntToString n)
    | v => v
  match raw' with
  | .str s =>
    let trimmed := jsTrim s
    if trimmed.isEmpty then none
    else
      let withoutAt := stripLeadAt trimmed
      if withoutAt.isEmpty then none else some (toLowerList withoutAt)
  | _ => none

/-- The push step of `collectNormalizedValues`: normalize one element and
append it when truthy and not already in the bucket. -/
def pushNormalized (b : List (List Char)) (e : JSValue) : List (List Char) :=
  match normalizeCitekey e with
  | some k => if b.contains k then b else b ++ [k]
  | none => b

/-- `collectNormalizedValues`: fold every element of an array (or the
scalar itself) through `normalizeCitekey`, appending each truthy result not
already in the bucket. -/
def collectNormalizedValues (rawValue : JSValue) (bucket : List (List Char)) :
    List (List Char) :=
  match rawValue with
  | .arr elems => elems.foldl pushNormalized bucket
  | v => pushNormalized bucket v

/-- `collectNormalizedCitekeys` from `zotero-utils.ts`
(`Frontmatter = Record<string, unknown> | null | undefValined` is modelled as
`Option` of a field list in insertion order). -/
def collectNormalizedCitekeys
    (frontmatter : Option (List (List Char × JSValue))) : List (List Char) :=
  match frontmatter with
  | none => []
  | some fields =>
    fields.foldl (fun keys kv =>
      let key := toLowerList (jsTrim kv.1)
      if isCitekeyField key then collectNormalizedValues kv.2 keys else keys) []

/-- The citekey selection of `openInZotero` step 1 (`main.ts`):
`frontmatter?.['citekey'] || frontmatter?.['zotero-key']`. -/
def declaredCitekey (frontmatter : Option (List (List Char × JSValue))) :
    JSValue :=
  match frontmatter with
  | none => .undefVal
  | some fields =>
    let a := getProp fields "citekey".data
    if jsTruthy a then a else getProp fields "zotero-key".data

/-- Whether `openInZotero` runs Plan A (queries the remote lookup client
with the declared citekey): the `if (citekey)` guard. -/
def openInZoteroUsesPlanA
    (frontmatter : Option (List (List Char × JSValue))) : Bool :=
  jsTruthy (declaredCitekey frontmatter)

/-- Match `\r?\n` (with its greedy `\r?`) at the front of a string. -/
def matchNl : List Char → Option (List Char)
  | '\r' :: '\n' :: rest => some rest
  | '\n' :: rest => some rest
  | _ => none

/-- The lazy `([\s\S]*?)` scan of the frontmatter regex: find the shortest
body after which `\r?\n---` (newline then a three-hyphen fence) matches,
returning that body. -/
def fmLazyScan : List Char → Option (List Char)
  | [] => none
  | c :: rest =>
    let hit := match matchNl (c :: rest) with
      | some t => "---".data.isPrefixOf t
      | none => false
    if hit then some []
    else (fmLazyScan rest).map (fun b => c :: b)

/-- One attempt of the frontmatter regex with the greedy `\s*` bound to
exactly `k` characters: `\r?\n` then the lazy body scan. -/
def fmAttempt (s : List Char) (k : Nat) : Option (List Char) :=
  match matchNl (s.drop k) with
  | some t => fmLazyScan t
  | none => none

/-- Backtracking over the greedy `\s*` of the frontmatter regex: try each
whitespace-run length from `k` down to `0`, longest first. -/
def fmTryWs (s : List Char) : Nat → Option (List Char)
  | 0 => fmAttempt s 0
  | k + 1 =>
    match fmAttempt s (k + 1) with
    | some body => some body
    | none => fmTryWs s k

/-- The captured group of the frontmatter regex of `main.ts` (a
three-hyphen fence, then `\s*`, a newline, the lazy body, a newline and a
closing three-hyphen fence), applied to the note content. -/
def fmHeaderBlock (content : List Char) : Option (List Char) :=
  if "---".data.isPrefixOf content then
    let s := content.drop 3
    fmTryWs s (s.takeWhile isJsWs).length
  else none

/-- `Object.entries` keys of a JavaScript array: its indices as strings. -/
def enumFields (elems : List JSValue) : List (List Char × JSValue) :=
  ((List.range elems.length).zip elems).map
    (fun p => ((toString p.1).data, p.2))

/-- `extractFrontmatter` from `main.ts`: on content starting with `---`,
capture the header block delimited by `---` lines and parse it with the
external YAML parser (an injected collaborator, here a parameter; a parse
failure or exception is its returning a non-object). The code keeps the
result only when it is truthy and `typeof` object (arrays qualify, with
their indices as entry keys). -/
def extractFrontmatter (parseYaml : List Char → JSValue)
    (content : List Char) : Option (List (List Char × JSValue)) :=
  if "---".data.isPrefixOf content then
    match fmHeaderBlock content with
    | some body =>
      match parseYaml body with
      | .obj fields => some fields
      | .arr elems => some (enumFields elems)
      | _ => none
    | none => none
  else none

/-- `getNormalizedCitekeys` from `main.ts`: prefer citekeys collected from
the cached frontmatter; when that list is empty, read the raw note content
and re-extract the frontmatter. The returned flag records whether the raw
content was parsed (the observable fallback event); the vault read is
modelled as always succeeding with the given `content`. -/
def getNormalizedCitekeys (parseYaml : List Char → JSValue)
    (cachedFrontmatter : Option (List (List Char × JSValue)))
    (content : List Char) : List (List Char) × Bool :=
  let cacheCitekeys := collectNormalizedCitekeys cachedFrontmatter
  if cacheCitekeys.length > 0 then (cacheCitekeys, false)
  else (collectNormalizedCitekeys (extractFrontmatter parseYaml content), true)

/-- Modelled from the spec's words, for comparison with `findTitleMatch`
(claim C6): with no terms, the first entry whose (trimmed) title is
non-empty; otherwise the first entry whose case-folded title contains every
term as a substring; absent when no entry qualifies. -/
def findTitleMatchSpec (entries : List JSValue) (terms : List (List Char)) :
    Option JSValue :=
  if terms.isEmpty then
    entries.find? (fun e => (extractTitleFromEntry e).isSome)
  else
    entries.find? (fun e =>
      match extractTitleFromEntry e with
      | some t => terms.all (fun term => hasSub (toLowerList t) term)
      | none => false)

example : fmHeaderBlock "---\ncitekey: x\n---\nbody".data
    = some "citekey: x".data := rfl
example : fmHeaderBlock "--- \r\ncitekey: x\r\n---".data
    = some "citekey: x".data := rfl
example : fmHeaderBlock "---\n\n---".data = some [] := rfl
example : fmHeaderBlock "no frontmatter".data = none := rfl
example : fmHeaderBlock "---\ncitekey: x".data = none := rfl

-- Sanity checks replaying the repository's own unit tests.
example : normalizeZoteroSelectPath "zotero://select/library/items/ABCDE".data
    = some "library/items/ABCDE".data := by decide
example : normalizeZoteroSelectPath "https://zotero.org/groups/25/items/XYZ123".data
    = some "groups/25/items/XYZ123".data := by decide
example : normalizeZoteroSelectPath "https://zotero.org/users/0/items/Z9999".data
    = some "library/items/Z9999".data := by decide
example : normalizeZoteroSelectPath "groups/4/items/ABCD".data
    = some "groups/4/items/ABCD".data := by decide
example : normalizeZoteroSelectPath "items/0_FGHJK".data
    = some "library/items/FGHJK".data := by decide
example : normalizeZoteroSelectPath "0_FGHJK".data
    = some "library/items/FGHJK".data := by decide
example : normalizeZoteroSelectPath "  LMNOP  ".data
    = some "library/items/LMNOP".data := by decide
example : normalizeZoteroSelectPath "".data = none := by decide
example : normalizeZoteroSelectPath "   ".data = none := by decide
example : normalizeZoteroSelectPath "not-a-match".data = none := by decide

-- Sanity checks replaying the repository's own unit tests.
example : extractZoteroSelectPath (.str "zotero://select/groups/1/items/AAAA".data)
    = some "groups/1/items/AAAA".data := by decide
example : extractZoteroSelectPath (.obj [("id".data, .str "library/items/BBBB".data)])
    = some "library/items/BBBB".data := by decide
example : extractZoteroSelectPath
      (.obj [("itemKey".data, .str "DIFFERENT".data), ("groupID".data, .num 7)])
    = some "groups/7/items/DIFFERENT".data := by decide
example : extractZoteroSelectPath (.obj [("key".data, .str "CCC333".data)])
    = some "library/items/CCC333".data := by decide
example : extractZoteroSelectPath
      (.obj [("key".data, .str "DDD444".data), ("groupId".data, .str "9".data)])
    = some "groups/9/items/DDD444".data := by decide
example : extractZoteroSelectPath (.obj [("id".data, .str [])]) = none := by decide
example : extractZoteroSelectPath (.obj [("title".data, .str "no id fields".data)])
    = none := by decide
example : extractZoteroSelectPath .nullv = none := by decide

example : normalizeCitekey (.str "  @Smith2020 ".data) = some "smith2020".data := by
  decide
example : normalizeCitekey (.str "DOE2021".data) = some "doe2021".data := by decide
example : normalizeCitekey (.num 1234) = some "1234".data := by decide
example : normalizeCitekey (.str "@".data) = none := by decide
example : normalizeCitekey (.str []) = none := by decide
example : normalizeCitekey .undefVal = none := by decide

example : collectNormalizedCitekeys (some
      [("citekey".data, .str "@Alpha2020".data),
       ("zotero-key".data, .arr [.str "Bravo2021".data, .str []]),
       ("Title".data, .str "Ignored".data),
       ("bbt_citekey".data, .arr [.str "@Alpha2020".data, .str "@Charlie2022".data])])
    = ["alpha2020".data, "bravo2021".data, "charlie2022".data] := by decide
example : collectNormalizedCitekeys (some
      [("citekey".data, .arr [.str "@DupKey".data, .str "@DupKey".data]),
       ("better-bibtex-citekey".data, .str "@Unique".data)])
    = ["dupkey".data, "unique".data] := by decide
example : collectNormalizedCitekeys none = [] := by decide

example : findTitleMatch
      [.obj [("title".data, .str " First Paper ".data)],
       .obj [("title".data, .str "Second interesting Result".data)],
       .obj [("title".data, .str "Computation and Biology".data)]] []
    = some (.obj [("title".data, .str " First Paper ".data)]) := rfl
example : findTitleMatch
      [.obj [("title".data, .str " First Paper ".data)],
       .obj [("title".data, .str "Second interesting Result".data)],
       .obj [("title".data, .str "Computation and Biology".data)]]
      ["second".data, "result".data]
    = some (.obj [("title".data, .str "Second interesting Result".data)]) := rfl
example : findTitleMatch
      [.obj [("title".data, .str " First Paper ".data)],
       .obj [("title".data, .str "Second interesting Result".data)],
       .obj [("title".data, .str "Computation and Biology".data)]]
      ["missing".data]
    = none := rfl
example : findTitleMatch [.obj [("title".data, .str [])], .obj []] ["any".data]
    = none := rfl

/-! ### Character-class and trimming lemmas -/

lemma digit_not_ws {c : Char} (h : isDigitC c = true) : isJsWs c = false := by
  simp [isDigitC] at h
  simp [isJsWs]
  omega

lemma alnum_not_ws {c : Char} (h : isAlnumC c = true) : isJsWs c = false := by
  simp [isAlnumC] at h
  simp [isJsWs]
  omega

lemma mem_takeWhile {p : Char → Bool} {l : List Char} {a : Char}
    (h : a ∈ l.takeWhile p) : p a = true := by
  induction l with
  | nil => simp [List.takeWhile] at h
  | cons c t ih =>
    rw [List.takeWhile_cons] at h
    by_cases hc : p c = true
    · simp [hc] at h
      rcases h with h | h
      · rwa [h]
      · exact ih h
    · simp [hc] at h

lemma takeWhile_append_stop {p : Char → Bool} {l r : List Char} {c : Char}
    (hl : ∀ x ∈ l, p x = true) (hc : p c = false) :
    (l ++ c :: r).takeWhile p = l := by
  induction l with
  | nil => simp [List.takeWhile_cons, hc]
  | cons a t ih =>
    simp only [List.cons_append, List.takeWhile_cons, hl a (by simp)]
    simp only [if_true]
    rw [ih (fun x hx => hl x (by simp [hx]))]

lemma dropWhile_append_stop {p : Char → Bool} {l r : List Char} {c : Char}
    (hl : ∀ x ∈ l, p x = true) (hc : p c = false) :
    (l ++ c :: r).dropWhile p = c :: r := by
  induction l with
  | nil => simp [List.dropWhile_cons, hc]
  | cons a t ih =>
    simp only [List.cons_append, List.dropWhile_cons, hl a (by simp)]
    simp only [if_true]
    exact ih (fun x hx => hl x (by simp [hx]))

lemma dropWhile_eq_self_of_all {l : List Char} (h : ∀ c ∈ l, isJsWs c = false) :
    l.dropWhile isJsWs = l := by
  cases l with
  | nil => rfl
  | cons c t => simp [List.dropWhile_cons, h c (by simp)]

lemma jsTrim_eq_self {l : List Char} (h : ∀ c ∈ l, isJsWs c = false) :
    jsTrim l = l := by
  unfold jsTrim
  rw [dropWhile_eq_self_of_all h]
  rw [dropWhile_eq_self_of_all (fun c hc => h c (List.mem_reverse.mp hc))]
  exact List.reverse_reverse l

lemma dropWhile_eq_nil_of_all {l : List Char} (h : ∀ c ∈ l, isJsWs c = true) :
    l.dropWhile isJsWs = [] := by
  induction l with
  | nil => rfl
  | cons c t ih =>
    rw [List.dropWhile_cons, if_pos (h c (by simp))]
    exact ih (fun x hx => h x (by simp [hx]))

lemma jsTrim_eq_nil_of_all {l : List Char} (h : ∀ c ∈ l, isJsWs c = true) :
    jsTrim l = [] := by
  unfold jsTrim
  rw [dropWhile_eq_nil_of_all h]
  rfl

/-! ### Parser lemmas for the six SelectPath shapes -/

lemma takeDigits1_exact {ds rest : List Char} {c : Char}
    (hds : ∀ x ∈ ds, isDigitC x = true) (hne : ds ≠ [])
    (hc : isDigitC c = false) :
    takeDigits1 (ds ++ c :: rest) = some (ds, c :: rest) := by
  have he : ds.isEmpty = false := by
    cases ds with
    | nil => exact absurd rfl hne
    | cons a t => rfl
  simp only [takeDigits1]
  rw [takeWhile_append_stop hds hc, dropWhile_append_stop hds hc]
  simp [he]

lemma takeDigits1_sound {s ds rest : List Char}
    (h : takeDigits1 s = some (ds, rest)) :
    ds ≠ [] ∧ ∀ x ∈ ds, isDigitC x = true := by
  simp only [takeDigits1] at h
  by_cases he : (s.takeWhile isDigitC).isEmpty = true
  · simp [he] at h
  · simp only [he, Bool.false_eq_true, if_false, Option.some.injEq, Prod.mk.injEq] at h
    obtain ⟨h1, _⟩ := h
    subst h1
    refine ⟨?_, fun x hx => mem_takeWhile hx⟩
    intro hnil
    rw [hnil] at he
    simp at he

lemma allAlnum1_of {ks : List Char} (h1 : ks ≠ [])
    (h2 : ∀ x ∈ ks, isAlnumC x = true) : allAlnum1 ks = some ks := by
  have he : ks.isEmpty = false := by
    cases ks with
    | nil => exact absurd rfl h1
    | cons a t => rfl
  have ha : ks.all isAlnumC = true := List.all_eq_true.mpr h2
  simp [allAlnum1, he, ha]

lemma allAlnum1_sound {s ks : List Char} (h : allAlnum1 s = some ks) :
    ks = s ∧ s ≠ [] ∧ ∀ x ∈ s, isAlnumC x = true := by
  simp only [allAlnum1] at h
  by_cases he : s.isEmpty = true
  · simp [he] at h
  · simp only [he, Bool.false_eq_true, if_false] at h
    by_cases ha : s.all isAlnumC = true
    · simp only [ha, if_true, Option.some.injEq] at h
      refine ⟨h.symm, ?_, List.all_eq_true.mp ha⟩
      intro hnil
      subst hnil
      simp at he
    · simp [ha] at h

lemma idItemsKey_exact {ds ks : List Char}
    (h1 : ds ≠ []) (h2 : ∀ x ∈ ds, isDigitC x = true)
    (h3 : ks ≠ []) (h4 : ∀ x ∈ ks, isAlnumC x = true) :
    idItemsKey (ds ++ "/items/".data ++ ks) = some (ds, ks) := by
  have ht := @takeDigits1_exact ds ("items/".data ++ ks) '/' h2 h1
    (show isDigitC '/' = false by decide)
  have hstep : ∀ t : List Char,
      ciDrop "/items/".data ('/' :: ("items/".data ++ t)) = some t := fun t => rfl
  have hall := allAlnum1_of h3 h4
  simp at ht hstep
  simp [idItemsKey, ht, hstep, hall]

lemma idItemsKey_sound {s : List Char} {ds ks : List Char}
    (h : idItemsKey s = some (ds, ks)) :
    ds ≠ [] ∧ (∀ x ∈ ds, isDigitC x = true) ∧
    ks ≠ [] ∧ (∀ x ∈ ks, isAlnumC x = true) := by
  simp only [idItemsKey] at h
  split at h
  · cases h
  · rename_i p ds' rest heq1
    split at h
    · cases h
    · rename_i rest2 heq2
      split at h
      · cases h
      · rename_i ks' heq3
        obtain ⟨hd, hk⟩ := Prod.mk.injEq .. ▸ Option.some.inj h
        subst hd
        subst hk
        obtain ⟨hne, hdig⟩ := takeDigits1_sound heq1
        obtain ⟨hkeq, hne2, halnum⟩ := allAlnum1_sound heq3
        subst hkeq
        exact ⟨hne, hdig, hne2, halnum⟩

lemma idUnderscoreKey_sound {s : List Char} {ds ks : List Char}
    (h : idUnderscoreKey s = some (ds, ks)) :
    ds ≠ [] ∧ (∀ x ∈ ds, isDigitC x = true) ∧
    ks ≠ [] ∧ (∀ x ∈ ks, isAlnumC x = true) := by
  simp only [idUnderscoreKey] at h
  split at h
  · cases h
  · rename_i p ds' rest heq1
    split at h
    · rename_i rest2
      split at h
      · cases h
      · rename_i ks' heq3
        obtain ⟨hd, hk⟩ := Prod.mk.injEq .. ▸ Option.some.inj h
        subst hd
        subst hk
        obtain ⟨hne, hdig⟩ := takeDigits1_sound heq1
        obtain ⟨hkeq, hne2, halnum⟩ := allAlnum1_sound heq3
        subst hkeq
        exact ⟨hne, hdig, hne2, halnum⟩
    · cases h

lemma urlMatch_sound {s : List Char} {g : Bool} {ds ks : List Char}
    (h : urlMatch s = some (g, ds, ks)) :
    ds ≠ [] ∧ (∀ x ∈ ds, isDigitC x = true) ∧
    ks ≠ [] ∧ (∀ x ∈ ks, isAlnumC x = true) := by
  simp only [urlMatch] at h
  split at h
  · cases h
  · split at h
    · cases h
    · split at h
      · split at h
        · cases h
        · rename_i p ds' ks' heq
          simp only [Option.some.injEq, Prod.mk.injEq] at h
          obtain ⟨_, hd, hk⟩ := h
          subst hd
          subst hk
          exact idItemsKey_sound heq
      · split at h
        · split at h
          · cases h
          · rename_i p ds' ks' heq
            simp only [Option.some.injEq, Prod.mk.injEq] at h
            obtain ⟨_, hd, hk⟩ := h
            subst hd
            subst hk
            exact idItemsKey_sound heq
        · cases h

lemma groupsMatch_sound {s : List Char} {ds ks : List Char}
    (h : groupsMatch s = some (ds, ks)) :
    ds ≠ [] ∧ (∀ x ∈ ds, isDigitC x = true) ∧
    ks ≠ [] ∧ (∀ x ∈ ks, isAlnumC x = true) := by
  simp only [groupsMatch] at h
  split at h
  · cases h
  · exact idItemsKey_sound h

lemma libraryMatch_sound {s ks : List Char} (h : libraryMatch s = some ks) :
    ks ≠ [] ∧ ∀ x ∈ ks, isAlnumC x = true := by
  simp only [libraryMatch] at h
  split at h
  · cases h
  · obtain ⟨hk, hne, ha⟩ := allAlnum1_sound h
    subst hk
    exact ⟨hne, ha⟩

lemma bareItemsMatch_sound {s : List Char} {ds ks : List Char}
    (h : bareItemsMatch s = some (ds, ks)) :
    ds ≠ [] ∧ (∀ x ∈ ds, isDigitC x = true) ∧
    ks ≠ [] ∧ (∀ x ∈ ks, isAlnumC x = true) := by
  simp only [bareItemsMatch] at h
  split at h
  · cases h
  · exact idUnderscoreKey_sound h

lemma simpleKeyMatch_sound {s ks : List Char} (h : simpleKeyMatch s = some ks) :
    ks ≠ [] ∧ ∀ x ∈ ks, isAlnumC x = true := by
  simp only [simpleKeyMatch] at h
  obtain ⟨hk, hne, ha⟩ := allAlnum1_sound h
  subst hk
  exact ⟨hne, ha⟩

/-! ### Evaluating `normalizeZoteroSelectPath` on canonical paths -/

lemma normalize_of_trim {t : List Char} (hne : t ≠ [])
    (hws : ∀ c ∈ t, isJsWs c = false) :
    normalizeZoteroSelectPath t = normalizeShapes t := by
  have he : t.isEmpty = false := by
    cases t with
    | nil => exact absurd rfl hne
    | cons a l => rfl
  simp only [normalizeZoteroSelectPath, he, Bool.false_eq_true, if_false,
    jsTrim_eq_self hws]

lemma norm_groups_path {ds ks : List Char}
    (h1 : ds ≠ []) (h2 : ∀ x ∈ ds, isDigitC x = true)
    (h3 : ks ≠ []) (h4 : ∀ x ∈ ks, isAlnumC x = true) :
    normalizeZoteroSelectPath ("groups/".data ++ ds ++ "/items/".data ++ ks)
      = some ("groups/".data ++ ds ++ "/items/".data ++ ks) := by
  have hlit1 : ∀ c ∈ "groups/".data, isJsWs c = false := by decide
  have hlit2 : ∀ c ∈ "/items/".data, isJsWs c = false := by decide
  have hws : ∀ c ∈ "groups/".data ++ ds ++ "/items/".data ++ ks,
      isJsWs c = false := by
    intro c hc
    rcases List.mem_append.mp hc with hc | hc
    · rcases List.mem_append.mp hc with hc | hc
      · rcases List.mem_append.mp hc with hc | hc
        · exact hlit1 c hc
        · exact digit_not_ws (h2 c hc)
      · exact hlit2 c hc
    · exact alnum_not_ws (h4 c hc)
  have hne : "groups/".data ++ ds ++ "/items/".data ++ ks ≠ [] := by simp
  rw [normalize_of_trim hne hws]
  have hscheme : schemeMatch ("groups/".data ++ ds ++ "/items/".data ++ ks)
      = none := rfl
  have hurl : urlMatch ("groups/".data ++ ds ++ "/items/".data ++ ks)
      = none := rfl
  have hgm : groupsMatch ("groups/".data ++ ds ++ "/items/".data ++ ks)
      = idItemsKey (ds ++ "/items/".data ++ ks) := rfl
  simp only [normalizeShapes, hscheme, hurl, hgm, idItemsKey_exact h1 h2 h3 h4]

lemma norm_library_path {ks : List Char}
    (h3 : ks ≠ []) (h4 : ∀ x ∈ ks, isAlnumC x = true) :
    normalizeZoteroSelectPath ("library/items/".data ++ ks)
      = some ("library/items/".data ++ ks) := by
  have hlit : ∀ c ∈ "library/items/".data, isJsWs c = false := by decide
  have hws : ∀ c ∈ "library/items/".data ++ ks, isJsWs c = false := by
    intro c hc
    rcases List.mem_append.mp hc with hc | hc
    · exact hlit c hc
    · exact alnum_not_ws (h4 c hc)
  have hne : "library/items/".data ++ ks ≠ [] := by simp
  rw [normalize_of_trim hne hws]
  have hscheme : schemeMatch ("library/items/".data ++ ks) = none := rfl
  have hurl : urlMatch ("library/items/".data ++ ks) = none := rfl
  have hgm : groupsMatch ("library/items/".data ++ ks) = none := rfl
  have hlm : libraryMatch ("library/items/".data ++ ks) = allAlnum1 ks := rfl
  simp only [normalizeShapes, hscheme, hurl, hgm, hlm, allAlnum1_of h3 h4]
/-- C1 (amended): for every raw identifier whose trimmed form does not
match the `zotero://select/` scheme shape, a successful normalization is a
fixed point: `normalizeZoteroSelectPath x = some p` implies
`normalizeZoteroSelectPath p = some p`. -/
theorem normalizeZoteroSelectPath_idem_of_nonscheme
    (x p : List Char) (hs : schemeMatch (jsTrim x) = none)
    (h : normalizeZoteroSelectPath x = some p) :
    normalizeZoteroSelectPath p = some p := by
  simp only [normalizeZoteroSelectPath] at h
  by_cases hx : x.isEmpty = true
  · simp [hx] at h
  · simp only [hx, Bool.false_eq_true, if_false] at h
    by_cases ht : (jsTrim x).isEmpty = true
    · simp [ht] at h
    · simp only [ht, Bool.false_eq_true, if_false] at h
      simp only [normalizeShapes, hs] at h
      split at h
      · -- urlMatch hit
        rename_i g ds ks heq
        obtain ⟨h1, h2, h3, h4⟩ := urlMatch_sound heq
        split at h
        · obtain rfl := Option.some.inj h
          exact norm_groups_path h1 h2 h3 h4
        · obtain rfl := Option.some.inj h
          exact norm_library_path h3 h4
      · split at h
        · -- groupsMatch hit
          rename_i ds ks heq
          obtain ⟨h1, h2, h3, h4⟩ := groupsMatch_sound heq
          obtain rfl := Option.some.inj h
          exact norm_groups_path h1 h2 h3 h4
        · split at h
          · -- libraryMatch hit
            rename_i ks heq
            obtain ⟨h3, h4⟩ := libraryMatch_sound heq
            obtain rfl := Option.some.inj h
            exact norm_library_path h3 h4
          · split at h
            · -- bareItemsMatch hit
              rename_i lid key heq
              obtain ⟨h1, h2, h3, h4⟩ := bareItemsMatch_sound heq
              split at h
              · obtain rfl := Option.some.inj h
                exact norm_library_path h3 h4
              · obtain rfl := Option.some.inj h
                exact norm_groups_path h1 h2 h3 h4
            · split at h
              · -- bareMatch hit
                rename_i lid key heq
                obtain ⟨h1, h2, h3, h4⟩ := idUnderscoreKey_sound heq
                split at h
                · obtain rfl := Option.some.inj h
                  exact norm_library_path h3 h4
                · obtain rfl := Option.some.inj h
                  exact norm_groups_path h1 h2 h3 h4
              · split at h
                · -- simpleKeyMatch hit
                  rename_i ks heq
                  obtain ⟨h3, h4⟩ := simpleKeyMatch_sound heq
                  obtain rfl := Option.some.inj h
                  exact norm_library_path h3 h4
                · cases h

/-- C1 (counterexample): the scheme shape returns its suffix verbatim, so a
successfully normalized identifier need not be a fixed point — here
`zotero://select/ABC` normalizes to `ABC`, which re-normalizes to
`library/items/ABC`, not to itself. -/
theorem normalizeZoteroSelectPath_scheme_not_fixed :
    normalizeZoteroSelectPath "zotero://select/ABC".data = some "ABC".data ∧
    normalizeZoteroSelectPath "ABC".data = some "library/items/ABC".data ∧
    ("library/items/ABC".data : List Char) ≠ "ABC".data := by
  refine ⟨by decide, by decide, by decide⟩

/-- C1 (witness): the amended idempotence theorem applied to the bare
identifier `0_FGHJK`. -/
theorem normalizeZoteroSelectPath_idem_witness :
    normalizeZoteroSelectPath "library/items/FGHJK".data
      = some "library/items/FGHJK".data :=
  normalizeZoteroSelectPath_idem_of_nonscheme "0_FGHJK".data
    "library/items/FGHJK".data (by decide) (by decide)

/-- C8: `normalizeZoteroSelectPath` is total (its codomain is `Option`,
never an error): every whitespace-only input — the empty string included —
and every non-matching input yields absent. -/
theorem normalizeZoteroSelectPath_absent_on_invalid :
    (∀ s, (∀ c ∈ s, isJsWs c = true) → normalizeZoteroSelectPath s = none) ∧
    normalizeZoteroSelectPath [] = none ∧
    normalizeZoteroSelectPath " ".data = none ∧
    normalizeZoteroSelectPath "not-a-match".data = none := by
  refine ⟨?_, by decide, by decide, by decide⟩
  intro s hws
  simp only [normalizeZoteroSelectPath]
  by_cases hx : s.isEmpty = true
  · simp [hx]
  · simp only [hx, Bool.false_eq_true, if_false, jsTrim_eq_nil_of_all hws]
    simp

/-- C8 (witness): the whitespace clause applied to a two-space string. -/
theorem normalizeZoteroSelectPath_absent_witness :
    normalizeZoteroSelectPath "  ".data = none :=
  normalizeZoteroSelectPath_absent_on_invalid.1 "  ".data (by decide)

lemma norm_url_https_groups {ds ks : List Char}
    (h1 : ds ≠ []) (h2 : ∀ x ∈ ds, isDigitC x = true)
    (h3 : ks ≠ []) (h4 : ∀ x ∈ ks, isAlnumC x = true) :
    normalizeZoteroSelectPath
        ("https://zotero.org/groups/".data ++ ds ++ "/items/".data ++ ks)
      = some ("groups/".data ++ ds ++ "/items/".data ++ ks) := by
  have hlit : ∀ c ∈ "https://zotero.org/groups/".data, isJsWs c = false := by
    decide
  have hlit2 : ∀ c ∈ "/items/".data, isJsWs c = false := by decide
  have hws : ∀ c ∈ "https://zotero.org/groups/".data ++ ds ++ "/items/".data ++ ks,
      isJsWs c = false := by
    intro c hc
    rcases List.mem_append.mp hc with hc | hc
    · rcases List.mem_append.mp hc with hc | hc
      · rcases List.mem_append.mp hc with hc | hc
        · exact hlit c hc
        · exact digit_not_ws (h2 c hc)
      · exact hlit2 c hc
    · exact alnum_not_ws (h4 c hc)
  have hne : "https://zotero.org/groups/".data ++ ds ++ "/items/".data ++ ks
      ≠ [] := by simp
  rw [normalize_of_trim hne hws]
  have hscheme : schemeMatch
      ("https://zotero.org/groups/".data ++ ds ++ "/items/".data ++ ks)
      = none := rfl
  have h0 : urlMatch
      ("https://zotero.org/groups/".data ++ ds ++ "/items/".data ++ ks)
      = (match idItemsKey (ds ++ "/items/".data ++ ks) with
         | none => none
         | some (a, b) => some (true, a, b)) := rfl
  simp only [normalizeShapes, hscheme, h0, idItemsKey_exact h1 h2 h3 h4]
  simp

lemma norm_url_http_groups {ds ks : List Char}
    (h1 : ds ≠ []) (h2 : ∀ x ∈ ds, isDigitC x = true)
    (h3 : ks ≠ []) (h4 : ∀ x ∈ ks, isAlnumC x = true) :
    normalizeZoteroSelectPath
        ("http://zotero.org/groups/".data ++ ds ++ "/items/".data ++ ks)
      = some ("groups/".data ++ ds ++ "/items/".data ++ ks) := by
  have hlit : ∀ c ∈ "http://zotero.org/groups/".data, isJsWs c = false := by
    decide
  have hlit2 : ∀ c ∈ "/items/".data, isJsWs c = false := by decide
  have hws : ∀ c ∈ "http://zotero.org/groups/".data ++ ds ++ "/items/".data ++ ks,
      isJsWs c = false := by
    intro c hc
    rcases List.mem_append.mp hc with hc | hc
    · rcases List.mem_append.mp hc with hc | hc
      · rcases List.mem_append.mp hc with hc | hc
        · exact hlit c hc
        · exact digit_not_ws (h2 c hc)
      · exact hlit2 c hc
    · exact alnum_not_ws (h4 c hc)
  have hne : "http://zotero.org/groups/".data ++ ds ++ "/items/".data ++ ks
      ≠ [] := by simp
  rw [normalize_of_trim hne hws]
  have hscheme : schemeMatch
      ("http://zotero.org/groups/".data ++ ds ++ "/items/".data ++ ks)
      = none := rfl
  have h0 : urlMatch
      ("http://zotero.org/groups/".data ++ ds ++ "/items/".data ++ ks)
      = (match idItemsKey (ds ++ "/items/".data ++ ks) with
         | none => none
         | some (a, b) => some (true, a, b)) := rfl
  simp only [normalizeShapes, hscheme, h0, idItemsKey_exact h1 h2 h3 h4]
  simp

lemma norm_url_https_users {ds ks : List Char}
    (h1 : ds ≠ []) (h2 : ∀ x ∈ ds, isDigitC x = true)
    (h3 : ks ≠ []) (h4 : ∀ x ∈ ks, isAlnumC x = true) :
    normalizeZoteroSelectPath
        ("https://zotero.org/users/".data ++ ds ++ "/items/".data ++ ks)
      = some ("library/items/".data ++ ks) := by
  have hlit : ∀ c ∈ "https://zotero.org/users/".data, isJsWs c = false := by
    decide
  have hlit2 : ∀ c ∈ "/items/".data, isJsWs c = false := by decide
  have hws : ∀ c ∈ "https://zotero.org/users/".data ++ ds ++ "/items/".data ++ ks,
      isJsWs c = false := by
    intro c hc
    rcases List.mem_append.mp hc with hc | hc
    · rcases List.mem_append.mp hc with hc | hc
      · rcases List.mem_append.mp hc with hc | hc
        · exact hlit c hc
        · exact digit_not_ws (h2 c hc)
      · exact hlit2 c hc
    · exact alnum_not_ws (h4 c hc)
  have hne : "https://zotero.org/users/".data ++ ds ++ "/items/".data ++ ks
      ≠ [] := by simp
  rw [normalize_of_trim hne hws]
  have hscheme : schemeMatch
      ("https://zotero.org/users/".data ++ ds ++ "/items/".data ++ ks)
      = none := rfl
  have h0 : urlMatch
      ("https://zotero.org/users/".data ++ ds ++ "/items/".data ++ ks)
      = (match idItemsKey (ds ++ "/items/".data ++ ks) with
         | none => none
         | some (a, b) => some (false, a, b)) := rfl
  simp only [normalizeShapes, hscheme, h0, idItemsKey_exact h1 h2 h3 h4]
  simp

lemma norm_url_http_users {ds ks : List Char}
    (h1 : ds ≠ []) (h2 : ∀ x ∈ ds, isDigitC x = true)
    (h3 : ks ≠ []) (h4 : ∀ x ∈ ks, isAlnumC x = true) :
    normalizeZoteroSelectPath
        ("http://zotero.org/users/".data ++ ds ++ "/items/".data ++ ks)
      = some ("library/items/".data ++ ks) := by
  have hlit : ∀ c ∈ "http://zotero.org/users/".data, isJsWs c = false := by
    decide
  have hlit2 : ∀ c ∈ "/items/".data, isJsWs c = false := by decide
  have hws : ∀ c ∈ "http://zotero.org/users/".data ++ ds ++ "/items/".data ++ ks,
      isJsWs c = false := by
    intro c hc
    rcases List.mem_append.mp hc with hc | hc
    · rcases List.mem_append.mp hc with hc | hc
      · rcases List.mem_append.mp hc with hc | hc
        · exact hlit c hc
        · exact digit_not_ws (h2 c hc)
      · exact hlit2 c hc
    · exact alnum_not_ws (h4 c hc)
  have hne : "http://zotero.org/users/".data ++ ds ++ "/items/".data ++ ks
      ≠ [] := by simp
  rw [normalize_of_trim hne hws]
  have hscheme : schemeMatch
      ("http://zotero.org/users/".data ++ ds ++ "/items/".data ++ ks)
      = none := rfl
  have h0 : urlMatch
      ("http://zotero.org/users/".data ++ ds ++ "/items/".data ++ ks)
      = (match idItemsKey (ds ++ "/items/".data ++ ks) with
         | none => none
         | some (a, b) => some (false, a, b)) := rfl
  simp only [normalizeShapes, hscheme, h0, idItemsKey_exact h1 h2 h3 h4]
  simp

/-- C5: Zotero web URLs (`http` or `https`) with a numeric scope id and an
alphanumeric item key normalize with the `groups` scope preserved and the
`users` scope collapsed to `library` (its numeric id discarded), as on the
two concrete examples. -/
theorem normalizeZoteroSelectPath_web_url :
    (∀ ds ks : List Char, ds ≠ [] → (∀ x ∈ ds, isDigitC x = true) →
      ks ≠ [] → (∀ x ∈ ks, isAlnumC x = true) →
      normalizeZoteroSelectPath
          ("https://zotero.org/groups/".data ++ ds ++ "/items/".data ++ ks)
        = some ("groups/".data ++ ds ++ "/items/".data ++ ks) ∧
      normalizeZoteroSelectPath
          ("http://zotero.org/groups/".data ++ ds ++ "/items/".data ++ ks)
        = some ("groups/".data ++ ds ++ "/items/".data ++ ks) ∧
      normalizeZoteroSelectPath
          ("https://zotero.org/users/".data ++ ds ++ "/items/".data ++ ks)
        = some ("library/items/".data ++ ks) ∧
      normalizeZoteroSelectPath
          ("http://zotero.org/users/".data ++ ds ++ "/items/".data ++ ks)
        = some ("library/items/".data ++ ks)) ∧
    normalizeZoteroSelectPath "https://zotero.org/groups/25/items/XYZ123".data
      = some "groups/25/items/XYZ123".data ∧
    normalizeZoteroSelectPath "https://zotero.org/users/0/items/Z9999".data
      = some "library/items/Z9999".data := by
  refine ⟨fun ds ks h1 h2 h3 h4 => ⟨norm_url_https_groups h1 h2 h3 h4,
    norm_url_http_groups h1 h2 h3 h4, norm_url_https_users h1 h2 h3 h4,
    norm_url_http_users h1 h2 h3 h4⟩, by decide, by decide⟩

/-- C5 (witness): the quantified clause applied to scope id `25` and item
key `XYZ123`. -/
theorem normalizeZoteroSelectPath_web_url_witness :
    normalizeZoteroSelectPath
        ("https://zotero.org/groups/".data ++ "25".data ++ "/items/".data
          ++ "XYZ123".data)
      = some ("groups/".data ++ "25".data ++ "/items/".data ++ "XYZ123".data) :=
  (normalizeZoteroSelectPath_web_url.1 "25".data "XYZ123".data
    (by decide) (by decide) (by decide) (by decide)).1

/-- C4: `normalizeCitekey` accepts a string or number and returns absent
(never an error) for non-string/non-numeric input, for whitespace-only
string input (the empty string included) and for a bare `@`; any other
string yields its trimmed, `@`-stripped, lower-cased form, and a number is
stringified first — with the claim's three concrete examples. -/
theorem normalizeCitekey_behavior :
    normalizeCitekey .undefVal = none ∧
    normalizeCitekey .nullv = none ∧
    normalizeCitekey (.bool true) = none ∧
    normalizeCitekey (.obj []) = none ∧
    normalizeCitekey (.arr []) = none ∧
    (∀ s, (∀ c ∈ s, isJsWs c = true) → normalizeCitekey (.str s) = none) ∧
    normalizeCitekey (.str "@".data) = none ∧
    (∀ s, jsTrim s ≠ [] → stripLeadAt (jsTrim s) ≠ [] →
      normalizeCitekey (.str s) = some (toLowerList (stripLeadAt (jsTrim s)))) ∧
    normalizeCitekey (.str "  @Smith2020 ".data) = some "smith2020".data ∧
    normalizeCitekey (.num 1234) = some "1234".data := by
  refine ⟨by decide, by decide, by decide, by decide, by decide, ?_, by decide,
    ?_, by decide, by decide⟩
  · intro s hws
    simp only [normalizeCitekey, jsTrim_eq_nil_of_all hws]
    simp
  · intro s h1 h2
    have he1 : (jsTrim s).isEmpty = false := by
      cases hx : jsTrim s with
      | nil => exact absurd hx h1
      | cons a l => rfl
    have he2 : (stripLeadAt (jsTrim s)).isEmpty = false := by
      cases hx : stripLeadAt (jsTrim s) with
      | nil => exact absurd hx h2
      | cons a l => rfl
    simp only [normalizeCitekey, he1, he2, Bool.false_eq_true, if_false]

/-- C4 (witness): the whitespace clause at a blank string and the general
string clause at `"x"`. -/
theorem normalizeCitekey_behavior_witness :
    normalizeCitekey (.str " ".data) = none ∧
    normalizeCitekey (.str "x".data)
      = some (toLowerList (stripLeadAt (jsTrim "x".data))) :=
  ⟨normalizeCitekey_behavior.2.2.2.2.2.1 " ".data (by decide),
   normalizeCitekey_behavior.2.2.2.2.2.2.2.1 "x".data (by decide) (by decide)⟩

/-- C2 (counterexample): header-field matching is not hyphen/underscore-
insensitive — `cite_key` (the underscore variant of the recognized alias
`cite-key`) and `better_bibtex_citekey` (the underscore variant of
`better-bibtex-citekey`) contribute nothing, while `cite-key` itself does. -/
theorem collectNormalizedCitekeys_no_sep_insensitive :
    collectNormalizedCitekeys (some [("cite_key".data, .str "@Alpha2020".data)])
      = [] ∧
    collectNormalizedCitekeys (some [("cite-key".data, .str "@Alpha2020".data)])
      = ["alpha2020".data] ∧
    collectNormalizedCitekeys
        (some [("better_bibtex_citekey".data, .str "@Alpha2020".data)])
      = [] := by
  refine ⟨by decide, by decide, by decide⟩

/-- C2 (amended): header-field names are matched against the nine literal
aliases case-insensitively (after trimming); every field whose trimmed,
lower-cased name is one of the nine contributes its normalized values. -/
theorem collectNormalizedCitekeys_alias_of_lower_trim
    (name : List Char) (v : JSValue)
    (h : isCitekeyField (toLowerList (jsTrim name)) = true) :
    collectNormalizedCitekeys (some [(name, v)])
      = collectNormalizedValues v [] := by
  simp only [collectNormalizedCitekeys, List.foldl_cons, List.foldl_nil, h,
    if_true]

/-- C2 (witness): the amended theorem applied to the case-varied, padded
field name `" Cite-Key "`. -/
theorem collectNormalizedCitekeys_alias_witness :
    collectNormalizedCitekeys
        (some [(" Cite-Key ".data, .str "@Alpha2020".data)])
      = collectNormalizedValues (.str "@Alpha2020".data) [] :=
  collectNormalizedCitekeys_alias_of_lower_trim " Cite-Key ".data
    (.str "@Alpha2020".data) (by decide)

/-- C3: `openInZotero` step 1 reads only the `citekey` and `zotero-key`
header fields, not all nine recognized aliases — a note declaring its key
under `bbt_citekey` skips Plan A entirely even though the alias is
recognized by the citekey collector (and by the project README). -/
theorem openInZotero_plan_a_ignores_other_aliases :
    openInZoteroUsesPlanA (some [("bbt_citekey".data, .str "Smith2020".data)])
      = false ∧
    isCitekeyField "bbt_citekey".data = true ∧
    collectNormalizedCitekeys
        (some [("bbt_citekey".data, .str "Smith2020".data)])
      = ["smith2020".data] ∧
    openInZoteroUsesPlanA (some [("zotero-key".data, .str "Smith2020".data)])
      = true := by
  refine ⟨by decide, by decide, by decide, by decide⟩

/-! ### Accumulator lemmas for the citekey collector -/

lemma pushNormalized_append (b : List (List Char)) (e : JSValue) :
    ∃ fresh, pushNormalized b e = b ++ fresh ∧ ∀ k ∈ fresh, k ∉ b := by
  unfold pushNormalized
  cases normalizeCitekey e with
  | none => exact ⟨[], by simp⟩
  | some k =>
    by_cases hm : k ∈ b
    · exact ⟨[], by simp [hm]⟩
    · refine ⟨[k], by simp [hm], ?_⟩
      intro x hx
      rw [List.mem_singleton] at hx
      subst hx
      exact hm

lemma pushNormalized_nodup {b : List (List Char)} (h : b.Nodup) (e : JSValue) :
    (pushNormalized b e).Nodup := by
  unfold pushNormalized
  cases normalizeCitekey e with
  | none => exact h
  | some k =>
    by_cases hm : k ∈ b
    · simpa [hm] using h
    · simp [hm, List.nodup_append, h]

lemma foldl_push_append (elems : List JSValue) :
    ∀ b : List (List Char), ∃ fresh, elems.foldl pushNormalized b = b ++ fresh ∧
      ∀ k ∈ fresh, k ∉ b := by
  induction elems with
  | nil => exact fun b => ⟨[], by simp⟩
  | cons e es ih =>
    intro b
    obtain ⟨f1, hf1, hn1⟩ := pushNormalized_append b e
    obtain ⟨f2, hf2, hn2⟩ := ih (pushNormalized b e)
    refine ⟨f1 ++ f2, ?_, ?_⟩
    · rw [List.foldl_cons, hf2, hf1, List.append_assoc]
    · intro k hk
      rcases List.mem_append.mp hk with hk | hk
      · exact hn1 k hk
      · intro hkb
        exact hn2 k hk (by rw [hf1]; exact List.mem_append.mpr (Or.inl hkb))

lemma foldl_push_nodup (elems : List JSValue) :
    ∀ {b : List (List Char)}, b.Nodup → (elems.foldl pushNormalized b).Nodup := by
  induction elems with
  | nil => exact fun h => h
  | cons e es ih =>
    intro b h
    rw [List.foldl_cons]
    exact ih (pushNormalized_nodup h e)

lemma collectNormalizedValues_append (v : JSValue) (b : List (List Char)) :
    ∃ fresh, collectNormalizedValues v b = b ++ fresh ∧ ∀ k ∈ fresh, k ∉ b := by
  cases v with
  | arr elems => exact foldl_push_append elems b
  | str s => simpa [collectNormalizedValues] using pushNormalized_append b (.str s)
  | num n => simpa [collectNormalizedValues] using pushNormalized_append b (.num n)
  | bool x => simpa [collectNormalizedValues] using pushNormalized_append b (.bool x)
  | nullv => simpa [collectNormalizedValues] using pushNormalized_append b .nullv
  | undefVal => simpa [collectNormalizedValues] using pushNormalized_append b .undefVal
  | obj fields =>
    simpa [collectNormalizedValues] using pushNormalized_append b (.obj fields)

lemma collectNormalizedValues_nodup (v : JSValue) {b : List (List Char)}
    (h : b.Nodup) : (collectNormalizedValues v b).Nodup := by
  cases v with
  | arr elems => exact foldl_push_nodup elems h
  | str s => simpa [collectNormalizedValues] using pushNormalized_nodup h (.str s)
  | num n => simpa [collectNormalizedValues] using pushNormalized_nodup h (.num n)
  | bool x => simpa [collectNormalizedValues] using pushNormalized_nodup h (.bool x)
  | nullv => simpa [collectNormalizedValues] using pushNormalized_nodup h .nullv
  | undefVal => simpa [collectNormalizedValues] using pushNormalized_nodup h .undefVal
  | obj fields =>
    simpa [collectNormalizedValues] using pushNormalized_nodup h (.obj fields)

lemma foldl_fields_nodup (fields : List (List Char × JSValue)) :
    ∀ {acc : List (List Char)}, acc.Nodup →
      (fields.foldl (fun keys kv =>
        if isCitekeyField (toLowerList (jsTrim kv.1)) then
          collectNormalizedValues kv.2 keys
        else keys) acc).Nodup := by
  induction fields with
  | nil => exact fun h => h
  | cons kv rest ih =>
    intro acc h
    rw [List.foldl_cons]
    by_cases hk : isCitekeyField (toLowerList (jsTrim kv.1)) = true
    · simp only [hk, if_true]
      exact ih (collectNormalizedValues_nodup kv.2 h)
    · rw [Bool.not_eq_true] at hk
      simp only [hk, Bool.false_eq_true, if_false]
      exact ih h

/-- C7: the citekey list of a structured header never contains duplicate
canonical keys; the accumulator only ever appends keys not yet present
(preserving the order of first appearance of everything already
collected); and on the claim's concrete header the result is exactly
`["alpha2020", "bravo2021", "charlie2022"]` — the empty string dropped and
the repeated `@Alpha2020` deduplicated across fields. -/
theorem collectNormalizedCitekeys_nodup_ordered :
    (∀ fm, (collectNormalizedCitekeys fm).Nodup) ∧
    (∀ v bucket, ∃ fresh, collectNormalizedValues v bucket = bucket ++ fresh ∧
      ∀ k ∈ fresh, k ∉ bucket) ∧
    collectNormalizedCitekeys (some
      [("citekey".data, .str "@Alpha2020".data),
       ("zotero-key".data, .arr [.str "Bravo2021".data, .str []]),
       ("Title".data, .str "Ignored".data),
       ("bbt_citekey".data,
        .arr [.str "@Alpha2020".data, .str "@Charlie2022".data])])
      = ["alpha2020".data, "bravo2021".data, "charlie2022".data] := by
  refine ⟨?_, collectNormalizedValues_append, by decide⟩
  intro fm
  cases fm with
  | none => simp [collectNormalizedCitekeys]
  | some fields =>
    simp only [collectNormalizedCitekeys]
    exact foldl_fields_nodup fields List.nodup_nil

/-- C9 (counterexample): with an available indexed frontmatter that merely
contains no citekey field, `getNormalizedCitekeys` still parses the raw
note content (flag `true`), contradicting "when the indexed source is
available ... the raw content is not parsed". -/
theorem getNormalizedCitekeys_reparses_with_cache_present :
    (getNormalizedCitekeys (fun _ => .nullv)
        (some [("foo".data, .str "bar".data)])
        "---\ntitle: x\n---\nbody".data).2 = true ∧
    collectNormalizedCitekeys (some [("foo".data, .str "bar".data)]) = [] := by
  refine ⟨rfl, by decide⟩

/-- C9 (amended): `getNormalizedCitekeys` re-parses the raw note content
exactly when the indexed frontmatter yields zero citekeys (because it is
unavailable or contains no recognized field); when it yields at least one
citekey, that list is returned and the raw content is not parsed. -/
theorem getNormalizedCitekeys_cache_preference
    (py : List Char → JSValue) (cached : Option (List (List Char × JSValue)))
    (content : List Char) :
    (collectNormalizedCitekeys cached ≠ [] →
      getNormalizedCitekeys py cached content
        = (collectNormalizedCitekeys cached, false)) ∧
    (collectNormalizedCitekeys cached = [] →
      getNormalizedCitekeys py cached content
        = (collectNormalizedCitekeys (extractFrontmatter py content), true)) := by
  constructor
  · intro h
    have hl : 0 < (collectNormalizedCitekeys cached).length :=
      List.length_pos.mpr h
    simp [getNormalizedCitekeys, hl]
  · intro h
    simp [getNormalizedCitekeys, h]

/-- C9 (witness): the cache-hit clause applied to a header declaring
`citekey: X1`. -/
theorem getNormalizedCitekeys_cache_preference_witness :
    getNormalizedCitekeys (fun _ => JSValue.nullv)
        (some [("citekey".data, .str "X1".data)]) []
      = (["x1".data], false) := by
  have h := (getNormalizedCitekeys_cache_preference (fun _ => JSValue.nullv)
    (some [("citekey".data, .str "X1".data)]) []).1 (by decide)
  rw [h]
  decide

/-! ### `findTitleMatch` versus its specification -/

lemma findTitleLoop_none_eq (entries : List JSValue) :
    findTitleLoop none entries
      = entries.find? (fun e => (extractTitleFromEntry e).isSome) := by
  induction entries with
  | nil => rfl
  | cons e rest ih =>
    simp only [findTitleLoop]
    cases hx : extractTitleFromEntry e with
    | none => simp [List.find?_cons, hx, ih]
    | some t => simp [List.find?_cons, hx]

lemma findTitleLoop_some_eq (ts : List (List Char)) (entries : List JSValue) :
    findTitleLoop (some ts) entries
      = entries.find? (fun e =>
          match extractTitleFromEntry e with
          | some t => ts.all (fun term => hasSub (toLowerList t) term)
          | none => false) := by
  induction entries with
  | nil => rfl
  | cons e rest ih =>
    simp only [findTitleLoop]
    cases hx : extractTitleFromEntry e with
    | none => simp [List.find?_cons, hx, ih]
    | some t =>
      by_cases hall : ts.all (fun term => hasSub (toLowerList t) term) = true
      · simp [List.find?_cons, hx, hall]
      · rw [Bool.not_eq_true] at hall
        simp [List.find?_cons, hx, hall, ih]

/-- C6: `findTitleMatch` coincides with its specification — with no search
terms it returns the first entry whose trimmed title is non-empty, and with
terms it returns the first entry (in the order given) whose case-folded
title contains every term as a substring, absent when no entry qualifies —
replayed on the claim's concrete examples. -/
theorem findTitleMatch_agrees_spec :
    (∀ entries terms, findTitleMatch entries terms
      = findTitleMatchSpec entries terms) ∧
    findTitleMatch
        [.obj [("title".data, .str " First Paper ".data)],
         .obj [("title".data, .str "Second interesting Result".data)]] []
      = some (.obj [("title".data, .str " First Paper ".data)]) ∧
    findTitleMatch
        [.obj [("title".data, .str " First Paper ".data)],
         .obj [("title".data, .str "Second interesting Result".data)]]
        ["second".data, "result".data]
      = some (.obj [("title".data, .str "Second interesting Result".data)]) ∧
    findTitleMatch [.obj [("title".data, .str [])], .obj []] ["any".data]
      = none := by
  refine ⟨?_, rfl, rfl, rfl⟩
  intro entries terms
  cases entries with
  | nil =>
    cases terms with
    | nil => rfl
    | cons t ts => rfl
  | cons e rest =>
    cases terms with
    | nil =>
      simp only [findTitleMatch, findTitleMatchSpec, List.isEmpty_cons,
        List.isEmpty_nil, Bool.false_eq_true, if_false, if_true,
        List.length_nil, gt_iff_lt, lt_self_iff_false]
      exact findTitleLoop_none_eq (e :: rest)
    | cons t ts =>
      simp only [findTitleMatch, findTitleMatchSpec, List.isEmpty_cons,
        Bool.false_eq_true, if_false, List.length_cons]
      rw [if_pos (by omega)]
      exact findTitleLoop_some_eq (t :: ts) (e :: rest)

/-- C10 (implicit): when a candidate record has no usable direct id but a
non-empty string key, any group-scope value whose numeric extraction
succeeds — including `0`, negative numbers, and the empty string (which
converts to `0`) — produces `groups/<n>/items/<key>`; group id `0` is never
collapsed to `library`, unlike `normalizeZoteroSelectPath`'s bare `0_<KEY>`
shape, which is. -/
theorem extractZoteroSelectPath_group_zero_preserved :
    (∀ (k : List Char) (gv : JSValue) (n : Int), k ≠ [] →
      extractNumericId gv = some n →
      extractZoteroSelectPath
          (.obj [("key".data, .str k), ("groupID".data, gv)])
        = some ("groups/".data ++ jsIntToString n ++ "/items/".data ++ k)) ∧
    extractNumericId (.str []) = some 0 ∧
    extractZoteroSelectPath
        (.obj [("key".data, .str "KEY1".data), ("groupID".data, .num 0)])
      = some "groups/0/items/KEY1".data ∧
    extractZoteroSelectPath
        (.obj [("key".data, .str "KEY1".data), ("groupID".data, .str [])])
      = some "groups/0/items/KEY1".data ∧
    extractZoteroSelectPath
        (.obj [("key".data, .str "K2".data), ("groupID".data, .num (-3))])
      = some "groups/-3/items/K2".data ∧
    normalizeZoteroSelectPath "0_KEY1".data
      = some "library/items/KEY1".data := by
  refine ⟨?_, by decide, by decide, by decide, by decide, by decide⟩
  intro k gv n hk hn
  cases k with
  | nil => exact absurd rfl hk
  | cons c t =>
    cases gv with
    | num m =>
      obtain rfl : m = n := Option.some.inj hn
      rfl
    | str s =>
      show (match extractNumericId (.str s) with
        | some n2 => some ("groups/".data ++ jsIntToString n2
            ++ "/items/".data ++ (c :: t))
        | none => some ("library/items/".data ++ (c :: t)))
        = some ("groups/".data ++ jsIntToString n ++ "/items/".data ++ (c :: t))
      rw [hn]
    | bool x => simp [extractNumericId] at hn
    | nullv => simp [extractNumericId] at hn
    | undefVal => simp [extractNumericId] at hn
    | arr es => simp [extractNumericId] at hn
    | obj fs => simp [extractNumericId] at hn

/-- C10 (witness): the quantified clause applied to key `AB` and numeric
group id `7`. -/
theorem extractZoteroSelectPath_group_zero_witness :
    extractZoteroSelectPath
        (.obj [("key".data, .str "AB".data), ("groupID".data, .num 7)])
      = some ("groups/".data ++ jsIntToString 7 ++ "/items/".data
          ++ "AB".data) :=
  extractZoteroSelectPath_group_zero_preserved.1 "AB".data (.num 7) 7
    (by decide) (by decide)
